import Mathlib

/-!
Verification of the score aggregation and recommendation core of the
cognivio teacher-assessment backend (src/backend/server.py).

Scores are Python floats in the source; they are embedded as rationals.
Python dicts (which preserve insertion order) are embedded as association
lists with an ensure-key-then-modify update, matching the dict update
pattern used by the grouping loops in the source.
-/

namespace Cognivio

/-- One element-score record, as produced by the AI call or the mock
generator and stored inside an assessment document: element_id,
element_name, numeric score, list of observation strings.  The
confidence field plays no role in any aggregation and is omitted. -/
structure ElementScore where
  element_id : String
  element_name : String
  score : ℚ
  observations : List String
deriving DecidableEq

/-- Arithmetic mean of a list of rationals, as computed by the source
pattern sum(scores) / len(scores).  (On the empty list this is 0/0 = 0
in Lean; every use in the source is guarded by a non-emptiness check.) -/
def qmean (l : List ℚ) : ℚ := l.sum / l.length

/-- Round a rational to the nearest integer, ties to even: the rounding
used by Python round() on the values arising in this development. -/
def rndHalfEven (q : ℚ) : ℤ :=
  if q - ⌊q⌋ < 1/2 then ⌊q⌋
  else if 1/2 < q - ⌊q⌋ then ⌊q⌋ + 1
  else if ⌊q⌋ % 2 = 0 then ⌊q⌋ else ⌊q⌋ + 1

/-- Python round(x, n) for n decimal digits, on rationals. -/
def pyRound (n : ℕ) (q : ℚ) : ℚ :=
  (rndHalfEven (q * (10 : ℚ) ^ n) : ℚ) / (10 : ℚ) ^ n

/-- Source src/backend/server.py lines 1085-1094: map a 1-10 gradient
score into performance bands for UI. -/
def get_performance_level (score : ℚ) : String :=
  if score ≥ 8 then "excellent"
  else if score ≥ 5 then "needs_improvement"
  else "critical"

/-- Legacy 1-4 banding, from the repository's own tests
(src/tests/test_server.py, test_performance_level_mapping). -/
def legacy_performance_level (score : ℚ) : String :=
  if score ≥ 35/10 then "Distinguished"
  else if score ≥ 25/10 then "Proficient"
  else if score ≥ 15/10 then "Basic"
  else "Unsatisfactory"

/-- Source line 1452 (analyze_frames_with_ai): the level attached to each
raw AI element score is computed with get_performance_level, the 1-10
gradient banding. -/
def ai_attached_level (score : ℚ) : String := get_performance_level score

lemma level_of_ge8 (q : ℚ) (h : 8 ≤ q) : get_performance_level q = "excellent" := by
  unfold get_performance_level
  rw [if_pos (show q ≥ 8 from h)]

lemma level_of_mid (q : ℚ) (h5 : 5 ≤ q) (h8 : q < 8) :
    get_performance_level q = "needs_improvement" := by
  unfold get_performance_level
  rw [if_neg (show ¬ q ≥ 8 from not_le.mpr h8), if_pos (show q ≥ 5 from h5)]

lemma level_of_lt5 (q : ℚ) (h : q < 5) : get_performance_level q = "critical" := by
  unfold get_performance_level
  rw [if_neg (show ¬ q ≥ 8 from not_le.mpr (lt_trans h (by norm_num))),
    if_neg (show ¬ q ≥ 5 from not_le.mpr h)]

/-- C1: get_performance_level is a total function on the rationals that
assigns exactly one of the three bands, partitioning the line at 5 and 8
with no gaps or overlaps (each band equation holds exactly on its
interval), and out-of-range inputs such as -3 or 42 still get a
deterministic classification. -/
theorem c1_level_partition (q : ℚ) :
    (get_performance_level q = "excellent" ↔ 8 ≤ q) ∧
    (get_performance_level q = "needs_improvement" ↔ 5 ≤ q ∧ q < 8) ∧
    (get_performance_level q = "critical" ↔ q < 5) ∧
    get_performance_level (-3) = "critical" ∧
    get_performance_level 42 = "excellent" := by
  refine ⟨⟨fun h => ?_, level_of_ge8 q⟩,
    ⟨fun h => ?_, fun hh => level_of_mid q hh.1 hh.2⟩,
    ⟨fun h => ?_, level_of_lt5 q⟩, by decide, by decide⟩
  · by_contra hc
    push_neg at hc
    rcases le_or_lt 5 q with h5 | h5
    · rw [level_of_mid q h5 hc] at h
      exact absurd h (by decide)
    · rw [level_of_lt5 q h5] at h
      exact absurd h (by decide)
  · rcases le_or_lt 8 q with h8 | h8
    · rw [level_of_ge8 q h8] at h
      exact absurd h (by decide)
    rcases le_or_lt 5 q with h5 | h5
    · exact ⟨h5, h8⟩
    · rw [level_of_lt5 q h5] at h
      exact absurd h (by decide)
  · rcases le_or_lt 8 q with h8 | h8
    · rw [level_of_ge8 q h8] at h
      exact absurd h (by decide)
    rcases le_or_lt 5 q with h5 | h5
    · rw [level_of_mid q h5 h8] at h
      exact absurd h (by decide)
    · exact h5

/-! Grouping by element_id: the source's dict-based grouping loops. -/

/-- containsKey embeds the Python membership test of an element id in a
dict whose keys are element ids. -/
def containsKey (acc : List (String × α)) (k : String) : Bool :=
  acc.any (fun p => p.1 = k)

/-- modifyKey embeds updating the value stored under one key of a dict
represented as an association list in insertion order. -/
def modifyKey (acc : List (String × α)) (k : String) (f : α → α) : List (String × α) :=
  acc.map (fun p => if p.1 = k then (p.1, f p.2) else p)

/-- dictUpsert embeds the body of the grouping loops in the source: if the
record's element_id is not yet a key, install an initial entry for it at
the end (dict insertion order); then update the entry under that key. -/
def dictUpsert (init : ElementScore → α) (upd : ElementScore → α → α)
    (acc : List (String × α)) (e : ElementScore) : List (String × α) :=
  let acc1 := if containsKey acc e.element_id then acc
              else acc ++ [(e.element_id, init e)]
  modifyKey acc1 e.element_id (upd e)

/-- dictGroup embeds a whole grouping loop over the input sequence. -/
def dictGroup (init : ElementScore → α) (upd : ElementScore → α → α)
    (l : List ElementScore) : List (String × α) :=
  l.foldl (dictUpsert init upd) []

/-- keyStep accumulates element ids in order of first appearance. -/
def keyStep (ks : List String) (e : ElementScore) : List String :=
  if e.element_id ∈ ks then ks else ks ++ [e.element_id]

/-- firstKeys is the insertion order of the grouping dict's keys: element
ids in order of first appearance in the input sequence. -/
def firstKeys (l : List ElementScore) : List String := l.foldl keyStep []

/-- groupVal is the value a grouping loop ends with under key k: the
initializer applied to the first record with that element_id, then the
update applied for every record with that element_id in arrival order.
(The value for a key with no matching record never arises.) -/
def groupVal (init : ElementScore → α) (upd : ElementScore → α → α)
    (l : List ElementScore) (k : String) : α :=
  match l.filter (fun e => e.element_id = k) with
  | [] => init { element_id := k, element_name := "", score := 0, observations := [] }
  | e0 :: es => es.foldl (fun a e => upd e a) (upd e0 (init e0))

lemma dictGroup_append_singleton (init : ElementScore → α) (upd : ElementScore → α → α)
    (l : List ElementScore) (e : ElementScore) :
    dictGroup init upd (l ++ [e]) = dictUpsert init upd (dictGroup init upd l) e := by
  simp [dictGroup, List.foldl_append]

lemma firstKeys_append_singleton (l : List ElementScore) (e : ElementScore) :
    firstKeys (l ++ [e]) = keyStep (firstKeys l) e := by
  simp [firstKeys, List.foldl_append]

lemma mem_foldl_keyStep (k : String) :
    ∀ (l : List ElementScore) (ks : List String),
      k ∈ l.foldl keyStep ks ↔ k ∈ ks ∨ k ∈ l.map ElementScore.element_id := by
  intro l
  induction l with
  | nil => simp
  | cons e t ih =>
    intro ks
    rw [List.foldl_cons, ih]
    unfold keyStep
    by_cases he : e.element_id ∈ ks
    · rw [if_pos he]
      simp only [List.map_cons, List.mem_cons]
      constructor
      · rintro (h | h)
        · exact Or.inl h
        · exact Or.inr (Or.inr h)
      · rintro (h | h | h)
        · exact Or.inl h
        · exact Or.inl (h ▸ he)
        · exact Or.inr h
    · rw [if_neg he]
      simp only [List.mem_append, List.mem_singleton, List.map_cons, List.mem_cons]
      tauto

/-- Membership in firstKeys is membership among the element ids. -/
lemma mem_firstKeys (k : String) (l : List ElementScore) :
    k ∈ firstKeys l ↔ k ∈ l.map ElementScore.element_id := by
  rw [firstKeys, mem_foldl_keyStep]
  simp

/-- A key occurs among the element ids iff its group filter is non-empty. -/
lemma filter_id_ne_nil (l : List ElementScore) (k : String) :
    l.filter (fun e => e.element_id = k) ≠ [] ↔ k ∈ l.map ElementScore.element_id := by
  rw [ne_eq, List.filter_eq_nil_iff]
  simp only [decide_eq_true_eq, List.mem_map, not_forall]
  constructor
  · rintro ⟨e, he, hk⟩
    rw [not_not] at hk
    exact ⟨e, he, hk⟩
  · rintro ⟨e, he, hk⟩
    exact ⟨e, he, by rw [not_not]; exact hk⟩

lemma containsKey_map_key (ks : List String) (f : String → α) (k : String) :
    containsKey (ks.map (fun k0 => (k0, f k0))) k = true ↔ k ∈ ks := by
  simp [containsKey, List.any_map, Function.comp, List.any_eq_true]

lemma modifyKey_map_key (ks : List String) (f : String → α) (k0 : String) (g : α → α) :
    modifyKey (ks.map (fun k => (k, f k))) k0 g
      = ks.map (fun k => (k, if k = k0 then g (f k) else f k)) := by
  unfold modifyKey
  rw [List.map_map]
  refine List.map_congr_left ?_
  intro k _
  by_cases h : k = k0 <;> simp [h]

lemma groupVal_append_singleton_ne (init : ElementScore → α) (upd : ElementScore → α → α)
    (l : List ElementScore) (e : ElementScore) (k : String) (h : k ≠ e.element_id) :
    groupVal init upd (l ++ [e]) k = groupVal init upd l k := by
  unfold groupVal
  rw [List.filter_append]
  have hne : ¬ (e.element_id = k) := fun hh => h hh.symm
  have : [e].filter (fun x => x.element_id = k) = [] := by
    simp [List.filter_cons, hne]
  rw [this, List.append_nil]

lemma groupVal_append_singleton_self_new (init : ElementScore → α) (upd : ElementScore → α → α)
    (l : List ElementScore) (e : ElementScore)
    (h : l.filter (fun x => x.element_id = e.element_id) = []) :
    groupVal init upd (l ++ [e]) e.element_id = upd e (init e) := by
  unfold groupVal
  rw [List.filter_append, h, List.nil_append]
  simp [List.filter_cons]

lemma groupVal_append_singleton_self_old (init : ElementScore → α) (upd : ElementScore → α → α)
    (l : List ElementScore) (e : ElementScore)
    (h : l.filter (fun x => x.element_id = e.element_id) ≠ []) :
    groupVal init upd (l ++ [e]) e.element_id = upd e (groupVal init upd l e.element_id) := by
  unfold groupVal
  rw [List.filter_append]
  have he : [e].filter (fun x => x.element_id = e.element_id) = [e] := by
    simp [List.filter_cons]
  rw [he]
  rcases hl : l.filter (fun x => x.element_id = e.element_id) with _ | ⟨e0, es⟩
  · exact absurd hl h
  · rw [hl, List.cons_append]
    simp [List.foldl_append]

/-- Canonical form of the grouping loops: a grouping dict built over l is
the association list over the keys in first-appearance order, where the
value under key k is determined by the sublist of records whose
element_id is exactly k, in arrival order. -/
lemma dictGroup_eq (init : ElementScore → α) (upd : ElementScore → α → α) :
    ∀ l : List ElementScore,
      dictGroup init upd l = (firstKeys l).map (fun k => (k, groupVal init upd l k)) := by
  intro l
  induction l using List.reverseRecOn with
  | nil => simp [dictGroup, firstKeys]
  | append_singleton t e ih =>
    rw [dictGroup_append_singleton, firstKeys_append_singleton, ih]
    unfold dictUpsert keyStep
    by_cases h : e.element_id ∈ firstKeys t
    · have hc : containsKey ((firstKeys t).map (fun k => (k, groupVal init upd t k)))
          e.element_id = true := (containsKey_map_key _ _ _).mpr h
      rw [if_pos h, if_pos hc, modifyKey_map_key]
      refine List.map_congr_left ?_
      intro k hk
      by_cases hke : k = e.element_id
      · rw [if_pos hke, hke,
          groupVal_append_singleton_self_old init upd t e
            ((filter_id_ne_nil t e.element_id).mpr ((mem_firstKeys e.element_id t).mp h))]
      · rw [if_neg hke, groupVal_append_singleton_ne init upd t e k hke]
    · have hc : containsKey ((firstKeys t).map (fun k => (k, groupVal init upd t k)))
          e.element_id = false := by
        rw [← Bool.not_eq_true]
        intro hcc
        exact h ((containsKey_map_key _ _ _).mp hcc)
      rw [if_neg h, if_neg (by rw [hc]; exact Bool.false_ne_true)]
      unfold modifyKey
      rw [List.map_append, List.map_map, List.map_append]
      have h1 : ((firstKeys t).map
            ((fun p : String × α => if p.1 = e.element_id then (p.1, upd e p.2) else p) ∘
              (fun k => (k, groupVal init upd t k))))
          = (firstKeys t).map (fun k => (k, groupVal init upd (t ++ [e]) k)) := by
        refine List.map_congr_left ?_
        intro k hk
        have hke : k ≠ e.element_id := fun hh => h (hh ▸ hk)
        simp only [Function.comp]
        rw [if_neg hke, groupVal_append_singleton_ne init upd t e k hke]
      have hfil : t.filter (fun x => x.element_id = e.element_id) = [] := by
        by_contra hne
        exact h ((mem_firstKeys _ _).mpr ((filter_id_ne_nil t e.element_id).mp hne))
      have h2 : [(e.element_id, init e)].map
            (fun p : String × α => if p.1 = e.element_id then (p.1, upd e p.2) else p)
          = [(e.element_id, groupVal init upd (t ++ [e]) e.element_id)] := by
        rw [groupVal_append_singleton_self_new init upd t e hfil]
        simp
      rw [h1, h2]
      simp

/-! Dashboard aggregation (src/backend/server.py, get_teacher_dashboard,
lines 931-955). -/

/-- ElementGroup is the per-element accumulator of the dashboard grouping
loop: denormalized display name, scores in arrival order, concatenated
observations. -/
structure ElementGroup where
  element_name : String
  scores : List ℚ
  observations : List String
deriving DecidableEq

/-- Initial dashboard group entry (source lines 935-940): the display
name of the first record seen, empty score and observation lists. -/
def dashInit (e : ElementScore) : ElementGroup := ⟨e.element_name, [], []⟩

/-- Dashboard group update (source lines 941-942): append the score,
extend the observations. -/
def dashUpd (e : ElementScore) (g : ElementGroup) : ElementGroup :=
  ⟨g.element_name, g.scores ++ [e.score], g.observations ++ e.observations⟩

/-- Source lines 932-942: group the records by element_id. -/
def element_aggregates (l : List ElementScore) : List (String × ElementGroup) :=
  dictGroup dashInit dashUpd l

/-- takeLast embeds the Python slice xs[-n:]. -/
def takeLast (n : ℕ) (l : List α) : List α := l.drop (l.length - n)

/-- One row of the dashboard element summary (source lines 948-955). -/
structure ElementSummaryEntry where
  element_id : String
  element_name : String
  average_score : ℚ
  level : String
  assessment_count : ℕ
  recent_observations : List String
deriving DecidableEq

/-- Source lines 944-955: averages, levels, counts and observation tails
per element group. -/
def element_summary (l : List ElementScore) : List ElementSummaryEntry :=
  (element_aggregates l).map (fun p =>
    let avg := if p.2.scores = [] then 0 else qmean p.2.scores
    { element_id := p.1
      element_name := p.2.element_name
      average_score := pyRound 2 avg
      level := get_performance_level avg
      assessment_count := p.2.scores.length
      recent_observations := if p.2.observations = [] then [] else takeLast 5 p.2.observations })

lemma dashUpd_foldl (es : List ElementScore) :
    ∀ g : ElementGroup,
      es.foldl (fun a e => dashUpd e a) g
        = ⟨g.element_name, g.scores ++ es.map ElementScore.score,
            g.observations ++ (es.map ElementScore.observations).flatten⟩ := by
  induction es with
  | nil => intro g; simp
  | cons e t ih =>
    intro g
    rw [List.foldl_cons, ih]
    simp [dashUpd]

/-- The dashboard group value under a key with a non-empty group: display
name of the first contributing record, scores and concatenated
observations of exactly the group, in arrival order. -/
lemma dash_groupVal (l : List ElementScore) (k : String)
    (h : l.filter (fun e => e.element_id = k) ≠ []) :
    groupVal dashInit dashUpd l k
      = ⟨((l.filter (fun e => e.element_id = k)).map ElementScore.element_name).headI,
          (l.filter (fun e => e.element_id = k)).map ElementScore.score,
          ((l.filter (fun e => e.element_id = k)).map ElementScore.observations).flatten⟩ := by
  unfold groupVal
  rcases hl : l.filter (fun e => e.element_id = k) with _ | ⟨e0, es⟩
  · exact absurd hl h
  · rw [hl]
    dsimp only
    rw [dashUpd_foldl]
    simp [dashInit, dashUpd]

/-- Aggregation as the claim words it (amended only in rounding the
emitted average to 2 decimals): for the group of records whose element_id
equals k, emit the rounded arithmetic mean, the level of the unrounded
mean, the group size, and the last 5 of the concatenated observation
lists. -/
def specAggregateEntry (l : List ElementScore) (k : String) : ElementSummaryEntry :=
  let grp := l.filter (fun e => e.element_id = k)
  { element_id := k
    element_name := (grp.map ElementScore.element_name).headI
    average_score := pyRound 2 (qmean (grp.map ElementScore.score))
    level := get_performance_level (qmean (grp.map ElementScore.score))
    assessment_count := grp.length
    recent_observations := takeLast 5 ((grp.map ElementScore.observations).flatten) }

lemma element_summary_canonical (l : List ElementScore) :
    element_summary l = (firstKeys l).map (specAggregateEntry l) := by
  unfold element_summary element_aggregates
  rw [dictGroup_eq, List.map_map]
  refine List.map_congr_left ?_
  intro k hk
  have hf : l.filter (fun e => e.element_id = k) ≠ [] :=
    (filter_id_ne_nil l k).mpr ((mem_firstKeys k l).mp hk)
  simp only [Function.comp]
  rw [dash_groupVal l k hf]
  have hs : (l.filter (fun e => e.element_id = k)).map ElementScore.score ≠ [] := by
    intro hc
    exact hf (List.map_eq_nil_iff.mp hc)
  unfold specAggregateEntry
  dsimp only
  rw [if_neg hs]
  by_cases ho :
      ((l.filter (fun e => e.element_id = k)).map ElementScore.observations).flatten = []
  · rw [if_pos ho, ho]
    simp [takeLast]
  · rw [if_neg ho]
    simp

/-- C2 (amended): the dashboard aggregation groups records by exact
element_id string match (one summary row per distinct id, in first
appearance order), and for every group emits the arithmetic mean rounded
to 2 decimals as average_score, the level of the unrounded mean, the
group size as assessment_count, and the concatenation of the group's
observation lists trimmed to the last 5 entries. -/
theorem c2_dashboard_aggregation (l : List ElementScore) :
    element_summary l = (firstKeys l).map (specAggregateEntry l) :=
  element_summary_canonical l

lemma rndHalfEven_eq_of_lt (q : ℚ) (z : ℤ) (h1 : ⌊q⌋ = z) (h2 : q - (z : ℚ) < 1/2) :
    rndHalfEven q = z := by
  unfold rndHalfEven
  rw [h1, if_pos h2]

lemma qmean_112 : qmean [(1 : ℚ), 1, 2] = 4/3 := by
  simp [qmean]
  norm_num

lemma pyRound2_43 : pyRound 2 ((4 : ℚ)/3) = 133/100 := by
  unfold pyRound
  have hq : (4 : ℚ)/3 * 10 ^ 2 = 400/3 := by norm_num
  rw [hq, rndHalfEven_eq_of_lt (400/3) 133 (by norm_num [Int.floor_eq_iff]) (by norm_num)]
  norm_num

/-- C2 counterexample to the claim as stated: for three records on
element e1 with scores 1, 1, 2 the emitted average_score is the rounded
value 1.33, which differs from the arithmetic mean 4/3 of the group. -/
theorem c2_counterexample :
    (element_summary
        [⟨"e1", "E1", 1, []⟩, ⟨"e1", "E1", 1, []⟩, ⟨"e1", "E1", 2, []⟩]).map
        ElementSummaryEntry.average_score = [133/100] ∧
    qmean ((([⟨"e1", "E1", (1 : ℚ), []⟩, ⟨"e1", "E1", 1, []⟩,
        ⟨"e1", "E1", 2, []⟩] : List ElementScore).filter
        (fun e => e.element_id = "e1")).map ElementScore.score) = 4/3 ∧
    (133/100 : ℚ) ≠ 4/3 := by
  refine ⟨?_, ?_, by norm_num⟩
  · rw [element_summary_canonical]
    have hks : firstKeys [⟨"e1", "E1", 1, []⟩, ⟨"e1", "E1", 1, []⟩, ⟨"e1", "E1", 2, []⟩]
        = ["e1"] := by
      simp [firstKeys, keyStep]
    rw [hks]
    simp only [List.map_cons, List.map_nil]
    have : (specAggregateEntry
        [⟨"e1", "E1", 1, []⟩, ⟨"e1", "E1", 1, []⟩, ⟨"e1", "E1", 2, []⟩] "e1").average_score
        = 133/100 := by
      unfold specAggregateEntry
      simp
      rw [qmean_112, pyRound2_43]
    rw [this]
  · have hm : (([⟨"e1", "E1", (1 : ℚ), []⟩, ⟨"e1", "E1", 1, []⟩,
        ⟨"e1", "E1", 2, []⟩] : List ElementScore).filter
        (fun e => e.element_id = "e1")).map ElementScore.score = [(1 : ℚ), 1, 2] := by
      simp [List.filter_cons]
    rw [hm]
    exact qmean_112

/-- C9 counterexample to the claim as stated: adding the score 5 to a
group whose mean is already 5 leaves the mean at 5, which does not lie
strictly between the old mean and the added score. -/
theorem c9_counterexample :
    ¬ ((qmean [5] < qmean ([5] ++ [5]) ∧ qmean ([5] ++ [5]) < 5) ∨
       (5 < qmean ([5] ++ [5]) ∧ qmean ([5] ++ [5]) < qmean [5])) := by
  have h1 : qmean [(5 : ℚ)] = 5 := by
    simp [qmean]
  have h2 : qmean ([(5 : ℚ)] ++ [5]) = 5 := by
    simp [qmean]
  rw [h1, h2]
  simp

/-- C9 (amended): for a non-empty group, adding a score different from
the current mean strictly moves the mean toward the added value (the new
mean lies strictly between the old mean and the added score); adding a
score equal to the mean leaves the mean unchanged. -/
theorem c9_mean_moves (l : List ℚ) (x : ℚ) (hne : l ≠ []) :
    (qmean l < x → qmean l < qmean (l ++ [x]) ∧ qmean (l ++ [x]) < x) ∧
    (x < qmean l → x < qmean (l ++ [x]) ∧ qmean (l ++ [x]) < qmean l) ∧
    (x = qmean l → qmean (l ++ [x]) = qmean l) := by
  have hn0 : 0 < (l.length : ℚ) := by
    have h := List.length_pos.mpr hne
    exact_mod_cast h
  have hn1 : 0 < (l.length : ℚ) + 1 := by linarith
  have h2 : qmean (l ++ [x]) = (l.sum + x) / ((l.length : ℚ) + 1) := by
    unfold qmean
    rw [List.sum_append, List.length_append]
    push_cast
    simp
  have h1 : qmean l = l.sum / (l.length : ℚ) := rfl
  refine ⟨fun h => ⟨?_, ?_⟩, fun h => ⟨?_, ?_⟩, fun h => ?_⟩
  · have hs : l.sum < x * (l.length : ℚ) := (div_lt_iff hn0).mp (h1 ▸ h)
    rw [h1, h2, div_lt_div_iff hn0 hn1]
    nlinarith
  · have hs : l.sum < x * (l.length : ℚ) := (div_lt_iff hn0).mp (h1 ▸ h)
    rw [h2, div_lt_iff hn1]
    nlinarith
  · have hs : x * (l.length : ℚ) < l.sum := (lt_div_iff hn0).mp (h1 ▸ h)
    rw [h2, lt_div_iff hn1]
    nlinarith
  · have hs : x * (l.length : ℚ) < l.sum := (lt_div_iff hn0).mp (h1 ▸ h)
    rw [h1, h2, div_lt_div_iff hn1 hn0]
    nlinarith
  · rw [h2, h1, h]
    rw [h1]
    field_simp
    ring

/-- C9 witness: the amended theorem applied at the concrete group with
scores 1 and added score 2. -/
theorem c9_witness :
    qmean [1] < qmean ([1] ++ [2]) ∧ qmean ([1] ++ [2]) < 2 :=
  (c9_mean_moves [1] 2 (by simp)).1 (by norm_num [qmean])

/-! Overall scores (src/backend/server.py lines 867-869 and 1279-1281). -/

/-- Source lines 1279-1281 (analyze_video): the overall score of a new
assessment is the rounded mean of the element scores that are greater
than 0, and the number 0 when there are none. -/
def analyze_overall_score (element_scores : List ElementScore) : ℚ :=
  let valid := (element_scores.filter (fun e => 0 < e.score)).map ElementScore.score
  if valid = [] then 0 else pyRound 2 (qmean valid)

/-- The overall_score field stored in the assessment document, viewed as
an optional number so that a JSON null would be representable: the source
always stores a number (never null). -/
def analyze_overall_field (element_scores : List ElementScore) : Option ℚ :=
  some (analyze_overall_score element_scores)

/-- Source lines 867-869 (get_teacher_roster): the roster overall score
is the rounded mean of the non-null per-element means, and null when
there are none. -/
def roster_overall_score (vals : List (Option ℚ)) : Option ℚ :=
  let valid := vals.filterMap id
  if valid = [] then none else some (pyRound 2 (qmean valid))

/-- C3 counterexample to the claim as stated: at assessment creation the
overall score over an empty set of contributing element scores is the
number 0, not the null sentinel (while the roster aggregation does
produce null). -/
theorem c3_counterexample :
    analyze_overall_field [] = some 0 ∧
    (some (0 : ℚ) ≠ (none : Option ℚ)) ∧
    roster_overall_score [] = none := by
  refine ⟨rfl, by simp, rfl⟩

/-- C3 (amended): the roster aggregation yields null for an overall score
over zero contributing scores, but assessment creation yields the number
0 (not null) when the set of contributing element scores is empty. -/
theorem c3_overall_empty (vals : List (Option ℚ)) (l : List ElementScore)
    (hv : vals.filterMap id = []) (hl : l.filter (fun e => 0 < e.score) = []) :
    roster_overall_score vals = none ∧ analyze_overall_field l = some 0 := by
  constructor
  · simp [roster_overall_score, hv]
  · simp [analyze_overall_field, analyze_overall_score, hl]

/-- C3 witness: the amended theorem applied at a roster row whose only
per-element value is null and an assessment with no element scores. -/
theorem c3_witness :
    roster_overall_score [none] = none ∧ analyze_overall_field [] = some 0 :=
  c3_overall_empty [none] [] (by simp) rfl

/-! Stable sorting: Python sorted() and list.sort() are stable; both are
embedded as insertion into an already-sorted accumulator, inserting each
later element after every earlier element whose key is not greater. -/

/-- insertByLe inserts x after every leading element y with le y x. -/
def insertByLe (le : α → α → Bool) (x : α) : List α → List α
  | [] => [x]
  | y :: ys => if le y x then y :: insertByLe le x ys else x :: y :: ys

/-- sortStable is a stable sort with respect to le: it agrees with Python
sorted() for a key order le. -/
def sortStable (le : α → α → Bool) (l : List α) : List α :=
  l.foldl (fun acc x => insertByLe le x acc) []

lemma mem_insertByLe (le : α → α → Bool) (x : α) :
    ∀ l (z : α), z ∈ insertByLe le x l ↔ z = x ∨ z ∈ l := by
  intro l
  induction l with
  | nil => intro z; simp [insertByLe]
  | cons y ys ih =>
    intro z
    unfold insertByLe
    by_cases h : le y x = true
    · rw [if_pos h]
      simp only [List.mem_cons, ih]
      tauto
    · rw [if_neg h]
      simp only [List.mem_cons]

lemma insertByLe_perm (le : α → α → Bool) (x : α) :
    ∀ l, List.Perm (insertByLe le x l) (x :: l) := by
  intro l
  induction l with
  | nil => exact List.Perm.refl _
  | cons y ys ih =>
    unfold insertByLe
    by_cases h : le y x = true
    · rw [if_pos h]
      exact (ih.cons y).trans (List.Perm.swap x y ys)
    · rw [if_neg h]

lemma sortStable_perm (le : α → α → Bool) (l : List α) :
    List.Perm (sortStable le l) l := by
  suffices h : ∀ (t : List α) (acc : List α),
      List.Perm (t.foldl (fun acc x => insertByLe le x acc) acc) (acc ++ t) by
    have h0 := h l []
    rw [List.nil_append] at h0
    exact h0
  intro t
  induction t with
  | nil =>
    intro acc
    rw [List.foldl_nil, List.append_nil]
  | cons x ts ih =>
    intro acc
    rw [List.foldl_cons]
    refine (ih _).trans ?_
    refine (List.Perm.append_right ts (insertByLe_perm le x acc)).trans ?_
    rw [List.cons_append]
    exact List.perm_middle.symm

lemma sortStable_length (le : α → α → Bool) (l : List α) :
    (sortStable le l).length = l.length :=
  (sortStable_perm le l).length_eq

lemma sorted_insertByLe {κ : Type _} [LinearOrder κ] (le : α → α → Bool) (K : α → κ)
    (hkey : ∀ a b, le a b = true ↔ K a ≤ K b) (x : α) :
    ∀ l, l.Pairwise (fun a b => le a b = true) →
      (insertByLe le x l).Pairwise (fun a b => le a b = true) := by
  intro l
  induction l with
  | nil => intro _; simp [insertByLe]
  | cons y ys ih =>
    intro hp
    rcases List.pairwise_cons.mp hp with ⟨hy, hys⟩
    unfold insertByLe
    by_cases h : le y x = true
    · rw [if_pos h]
      refine List.pairwise_cons.mpr ⟨?_, ih hys⟩
      intro z hz
      rcases (mem_insertByLe le x ys z).mp hz with hzx | hzy
      · exact hzx ▸ h
      · exact hy z hzy
    · rw [if_neg h]
      have hxy : le x y = true := by
        rw [hkey]
        have : ¬ K y ≤ K x := fun hc => h ((hkey y x).mpr hc)
        exact le_of_lt (lt_of_not_le this)
      refine List.pairwise_cons.mpr ⟨?_, hp⟩
      intro z hz
      rcases List.mem_cons.mp hz with hzy | hzys
      · exact hzy ▸ hxy
      · rw [hkey]
        exact le_trans ((hkey x y).mp hxy) ((hkey y z).mp (hy z hzys))

lemma sorted_sortStable {κ : Type _} [LinearOrder κ] (le : α → α → Bool) (K : α → κ)
    (hkey : ∀ a b, le a b = true ↔ K a ≤ K b) (l : List α) :
    (sortStable le l).Pairwise (fun a b => le a b = true) := by
  suffices h : ∀ (t : List α) (acc : List α),
      acc.Pairwise (fun a b => le a b = true) →
        (t.foldl (fun acc x => insertByLe le x acc) acc).Pairwise
          (fun a b => le a b = true) by
    exact h l [] (by simp)
  intro t
  induction t with
  | nil => intro acc hacc; simpa using hacc
  | cons x ts ih =>
    intro acc hacc
    rw [List.foldl_cons]
    exact ih _ (sorted_insertByLe le K hkey x acc hacc)

lemma filter_insertByLe {κ : Type _} [LinearOrder κ] [DecidableEq κ] (le : α → α → Bool) (K : α → κ)
    (hkey : ∀ a b, le a b = true ↔ K a ≤ K b) (x : α) (c : κ) :
    ∀ l, l.Pairwise (fun a b => le a b = true) →
      (insertByLe le x l).filter (fun a => K a = c)
        = if K x = c then l.filter (fun a => K a = c) ++ [x]
          else l.filter (fun a => K a = c) := by
  intro l
  induction l with
  | nil =>
    intro _
    by_cases hx : K x = c
    · simp [insertByLe, List.filter_cons, hx]
    · simp [insertByLe, List.filter_cons, hx]
  | cons y ys ih =>
    intro hp
    rcases List.pairwise_cons.mp hp with ⟨hy, hys⟩
    unfold insertByLe
    by_cases h : le y x = true
    · rw [if_pos h]
      by_cases hx : K x = c
      · by_cases hyc : K y = c <;>
          simp [List.filter_cons, hyc, ih hys, hx]
      · by_cases hyc : K y = c <;>
          simp [List.filter_cons, hyc, ih hys, hx]
    · rw [if_neg h]
      have hxy : K x < K y :=
        lt_of_not_le (fun hc => h ((hkey y x).mpr hc))
      by_cases hx : K x = c
      · have hnil : (y :: ys).filter (fun a => K a = c) = [] := by
          rw [List.filter_eq_nil_iff]
          intro a ha
          simp only [decide_eq_true_eq]
          intro hc
          rcases List.mem_cons.mp ha with hay | hays
          · rw [← hay] at hxy
            rw [hc, ← hx] at hxy
            exact lt_irrefl _ hxy
          · have h1 : K y ≤ K a := (hkey y a).mp (hy a hays)
            rw [hc, ← hx] at h1
            exact absurd h1 (not_le.mpr hxy)
        rw [if_pos hx, hnil, List.filter_cons]
        have hcx : (decide (K x = c)) = true := by simp [hx]
        rw [hcx, if_pos rfl, hnil]
        simp
      · rw [if_neg hx, List.filter_cons]
        have hcx : (decide (K x = c)) = false := by simp [hx]
        rw [hcx]
        simp

lemma filter_sortStable {κ : Type _} [LinearOrder κ] [DecidableEq κ] (le : α → α → Bool) (K : α → κ)
    (hkey : ∀ a b, le a b = true ↔ K a ≤ K b) (l : List α) (c : κ) :
    (sortStable le l).filter (fun a => K a = c) = l.filter (fun a => K a = c) := by
  suffices h : ∀ (t : List α) (acc : List α),
      acc.Pairwise (fun a b => le a b = true) →
        (t.foldl (fun acc x => insertByLe le x acc) acc).filter (fun a => K a = c)
          = acc.filter (fun a => K a = c) ++ t.filter (fun a => K a = c) by
    simpa using h l [] (by simp)
  intro t
  induction t with
  | nil => intro acc _; simp
  | cons x ts ih =>
    intro acc hacc
    rw [List.foldl_cons, ih _ (sorted_insertByLe le K hkey x acc hacc),
      filter_insertByLe le K hkey x c acc hacc, List.filter_cons]
    by_cases hx : K x = c
    · simp [hx]
    · simp [hx]

/-! Narrative generator: recommendations (src/backend/server.py,
generate_recommendations, lines 1503-1522). -/

/-- Priority recommendation phrase (source line 1515). -/
def priorityPhrase (name : String) : String :=
  "Priority: Focus on improving " ++ name ++
    ". Consider mentorship or targeted professional development."

/-- Continue-developing recommendation phrase (source line 1517). -/
def continuePhrase (name : String) : String :=
  "Continue developing skills in " ++ name ++
    ". Review best practices and observe peer teachers."

/-- Default congratulatory recommendation (source line 1520). -/
def congratsMessage : String :=
  "Excellent performance across all evaluated areas. Consider leadership or mentoring opportunities."

/-- Per-element phrase choice (source lines 1512-1517). -/
def recPhrase (e : ElementScore) : String :=
  if e.score < 2 then priorityPhrase e.element_name
  else continuePhrase e.element_name

/-- Source lines 1503-1522: keep elements scoring below 3, sort them
ascending by score (Python sorted, stable), take the first 3, phrase
each, and fall back to the congratulatory message when nothing scored
below 3. -/
def generate_recommendations (element_scores : List ElementScore) : List String :=
  let low_scores := (sortStable (fun a b => decide (a.score ≤ b.score))
      (element_scores.filter (fun e => e.score < 3))).take 3
  let recs := low_scores.map recPhrase
  if recs = [] then [congratsMessage] else recs

/-- C5: generate_recommendations returns at most 3 entries and is never
empty; when no element scores below 3 it is exactly the congratulatory
message; otherwise it is the worst-first phrasing of the first 3 of the
stably sorted below-3 elements, the sorted selection is ascending by
score, and elements of equal score keep their input order (the sorted
list filtered to any one score value equals the input filtered to it). -/
theorem c5_recommendations (l : List ElementScore) :
    (generate_recommendations l).length ≤ 3 ∧
    generate_recommendations l ≠ [] ∧
    (l.filter (fun e => e.score < 3) = [] →
      generate_recommendations l = [congratsMessage]) ∧
    (l.filter (fun e => e.score < 3) ≠ [] →
      generate_recommendations l
        = ((sortStable (fun a b => decide (a.score ≤ b.score))
            (l.filter (fun e => e.score < 3))).take 3).map recPhrase) ∧
    (sortStable (fun a b => decide (a.score ≤ b.score))
        (l.filter (fun e => e.score < 3))).Pairwise (fun a b => a.score ≤ b.score) ∧
    (∀ c : ℚ,
      (sortStable (fun a b => decide (a.score ≤ b.score))
          (l.filter (fun e => e.score < 3))).filter (fun e => e.score = c)
        = (l.filter (fun e => e.score < 3)).filter (fun e => e.score = c)) := by
  have hkey : ∀ a b : ElementScore,
      (fun a b => decide (a.score ≤ b.score)) a b = true ↔ a.score ≤ b.score := by
    intro a b
    simp
  have hsorted := sorted_sortStable (fun a b : ElementScore => decide (a.score ≤ b.score))
    ElementScore.score hkey (l.filter (fun e => e.score < 3))
  have hlen := sortStable_length (fun a b : ElementScore => decide (a.score ≤ b.score))
    (l.filter (fun e => e.score < 3))
  by_cases hfl : l.filter (fun e => e.score < 3) = []
  · have hnil : sortStable (fun a b : ElementScore => decide (a.score ≤ b.score))
        (l.filter (fun e => e.score < 3)) = [] := by
      rw [← List.length_eq_zero]
      rw [hlen, hfl]
      rfl
    have hout : generate_recommendations l = [congratsMessage] := by
      unfold generate_recommendations
      rw [hnil]
      rfl
    refine ⟨by rw [hout]; norm_num, by rw [hout]; exact fun hc => List.cons_ne_nil _ _ hc,
      fun _ => hout, fun hc => absurd hfl hc, ?_, ?_⟩
    · rw [hnil]
      exact List.Pairwise.nil
    · intro c
      rw [hnil, hfl]
  · have hnil : sortStable (fun a b : ElementScore => decide (a.score ≤ b.score))
        (l.filter (fun e => e.score < 3)) ≠ [] := by
      intro hc
      apply hfl
      rw [← List.length_eq_zero, ← hlen, hc]
      rfl
    have htake : ((sortStable (fun a b : ElementScore => decide (a.score ≤ b.score))
        (l.filter (fun e => e.score < 3))).take 3) ≠ [] := by
      intro hc
      rcases List.take_eq_nil_iff.mp hc with h3 | hl
      · exact absurd h3 (by norm_num)
      · exact hnil hl
    have hmapne : (((sortStable (fun a b : ElementScore => decide (a.score ≤ b.score))
        (l.filter (fun e => e.score < 3))).take 3).map recPhrase) ≠ [] := by
      intro hc
      exact htake (List.map_eq_nil_iff.mp hc)
    have hout : generate_recommendations l
        = ((sortStable (fun a b : ElementScore => decide (a.score ≤ b.score))
            (l.filter (fun e => e.score < 3))).take 3).map recPhrase := by
      unfold generate_recommendations
      rw [if_neg hmapne]
    refine ⟨?_, by rw [hout]; exact hmapne, fun hc => absurd hc hfl, fun _ => hout, ?_, ?_⟩
    · rw [hout, List.length_map]
      exact le_trans (List.length_take_le 3 _) (le_refl 3)
    · exact hsorted.imp (fun h => (hkey _ _).mp h)
    · intro c
      exact filter_sortStable (fun a b : ElementScore => decide (a.score ≤ b.score))
        ElementScore.score hkey (l.filter (fun e => e.score < 3)) c

/-- C5 witness: the theorem applied at a single element scoring 1. -/
theorem c5_witness :
    [(⟨"e1", "E1", 1, []⟩ : ElementScore)].filter (fun e => e.score < 3) ≠ [] ∧
    generate_recommendations [⟨"e1", "E1", 1, []⟩]
      = ((sortStable (fun a b => decide (a.score ≤ b.score))
          ([(⟨"e1", "E1", 1, []⟩ : ElementScore)].filter (fun e => e.score < 3))).take 3).map
          recPhrase := by
  have h : [(⟨"e1", "E1", 1, []⟩ : ElementScore)].filter (fun e => e.score < 3) ≠ [] := by
    norm_num [List.filter_cons]
  exact ⟨h, (c5_recommendations [⟨"e1", "E1", 1, []⟩]).2.2.2.1 h⟩

/-! Narrative generator: summary (src/backend/server.py,
generate_summary, lines 1484-1501).  The f-string number rendering is
embedded by fmtQ below; the str.title() and str.replace() calls are
embedded as character-list transformations. -/

/-- titleChars models Python str.title() (uppercase the first letter of
every alphabetic run) for the lowercase inputs occurring here. -/
def titleChars : Bool → List Char → List Char
  | _, [] => []
  | prevAlpha, c :: cs =>
    if c.isAlpha then
      (if prevAlpha then c else c.toUpper) :: titleChars true cs
    else
      c :: titleChars false cs

/-- pyTitle is str.title() on a string. -/
def pyTitle (s : String) : String := String.mk (titleChars false s.data)

/-- replaceUnderscores is str.replace applied to underscores, as in the
source's level.replace call. -/
def replaceUnderscores (s : String) : String :=
  String.mk (s.data.map (fun c => if c = '_' then ' ' else c))

/-- fracDigits produces the decimal digits after the point of num/den by
long division; the fuel bounds the digit count and is never exhausted on
the terminating expansions arising here. -/
def fracDigits : ℕ → ℕ → ℕ → List Char
  | 0, _, _ => []
  | _ + 1, 0, _ => []
  | fuel + 1, num, den =>
    Char.ofNat (48 + (num * 10) / den) :: fracDigits fuel ((num * 10) % den) den

/-- fmtQ renders a rational score the way Python str() renders the
corresponding numeric value inside the source's f-strings: integers
bare, non-integral values as a finite decimal without trailing zeros. -/
def fmtQ (q : ℚ) : String :=
  let sgn := if q < 0 then "-" else ""
  let n := q.num.natAbs
  let d := q.den
  if n % d = 0 then sgn ++ toString (n / d)
  else sgn ++ toString (n / d) ++ "." ++ String.mk (fracDigits 30 (n % d) d)

/-- Source lines 1484-1501: deterministic summary template. -/
def generate_summary (element_scores : List ElementScore) (overall_score : ℚ) : String :=
  let level := get_performance_level overall_score
  let strengths := (element_scores.filter (fun e => 3 ≤ e.score)).map ElementScore.element_name
  let areas_for_growth :=
    (element_scores.filter (fun e => e.score < 2.5)).map ElementScore.element_name
  let parts := ["Overall performance: " ++ pyTitle (replaceUnderscores level)
      ++ " (Score: " ++ fmtQ overall_score ++ "/10)."]
    ++ (if strengths = [] then [] else
        ["Key strengths include: " ++ String.intercalate ", " (strengths.take 3) ++ "."])
    ++ (if areas_for_growth = [] then [] else
        ["Areas for professional growth: "
          ++ String.intercalate ", " (areas_for_growth.take 3) ++ "."])
  String.intercalate " " parts

/-- Opening sentence as the claim words it, with the score displayed as
given (the amended reading). -/
def openingSentence (overall : ℚ) : String :=
  "Overall performance: " ++ pyTitle (replaceUnderscores (get_performance_level overall))
    ++ " (Score: " ++ fmtQ overall ++ "/10)."

/-- Opening sentence as the claim states it: the displayed score is
rounded to 2 decimals. -/
def openingSentenceRounded (overall : ℚ) : String :=
  "Overall performance: " ++ pyTitle (replaceUnderscores (get_performance_level overall))
    ++ " (Score: " ++ fmtQ (pyRound 2 overall) ++ "/10)."

/-- Strengths clause per the claim: the first 3 element names with score
at least 3 in input order, or nothing when no item qualifies. -/
def strengthsClause (l : List ElementScore) : Option String :=
  let names := ((l.filter (fun e => 3 ≤ e.score)).map ElementScore.element_name).take 3
  if names = [] then none
  else some ("Key strengths include: " ++ String.intercalate ", " names ++ ".")

/-- Growth clause per the claim: the first 3 element names with score
below 2.5 in input order, or nothing when no item qualifies. -/
def growthClause (l : List ElementScore) : Option String :=
  let names := ((l.filter (fun e => e.score < 2.5)).map ElementScore.element_name).take 3
  if names = [] then none
  else some ("Areas for professional growth: " ++ String.intercalate ", " names ++ ".")

/-- The summary template as the claim words it, amended only in showing
the overall score as given instead of rounded. -/
def summarizeSpec (l : List ElementScore) (overall : ℚ) : String :=
  String.intercalate " "
    ([openingSentence overall] ++ (strengthsClause l).toList ++ (growthClause l).toList)

/-- The summary template exactly as the claim states it, rounding the
displayed overall score to 2 decimals. -/
def summarizeClaimed (l : List ElementScore) (overall : ℚ) : String :=
  String.intercalate " "
    ([openingSentenceRounded overall] ++ (strengthsClause l).toList ++ (growthClause l).toList)

/-- The concrete rational 1.234, built in reduced form. -/
def q1234 : ℚ := Rat.mk' 617 500

/-- The concrete rational 1.23, built in reduced form. -/
def q123r : ℚ := Rat.mk' 123 100

/-- C6 counterexample to the claim as stated: generate_summary does not
round the displayed overall score; at overall_score 1.234 the code
renders 1.234 while the claimed template renders the rounded 1.23. -/
theorem c6_counterexample :
    q1234 = 1234/1000 ∧
    generate_summary [] q1234 ≠ summarizeClaimed [] q1234 := by
  have hq : q1234 = 1234/1000 := by
    unfold q1234
    rw [Rat.mk'_eq_divInt]
    norm_num [Rat.divInt_eq_div]
  refine ⟨hq, ?_⟩
  have hr : pyRound 2 q1234 = q123r := by
    unfold pyRound
    have h1 : q1234 * (10 : ℚ) ^ 2 = 617/5 := by
      rw [hq]
      norm_num
    rw [h1, rndHalfEven_eq_of_lt (617/5) 123 (by norm_num [Int.floor_eq_iff]) (by norm_num)]
    unfold q123r
    rw [Rat.mk'_eq_divInt]
    norm_num [Rat.divInt_eq_div]
  have hL : generate_summary [] q1234
      = "Overall performance: Critical (Score: 1.234/10)." := by decide
  have hR : summarizeClaimed [] q1234
      = "Overall performance: Critical (Score: 1.23/10)." := by
    unfold summarizeClaimed openingSentenceRounded
    rw [hr]
    decide
  rw [hL, hR]
  decide

/-- C6 (amended): generate_summary always equals the deterministic
template: opening sentence with the level of overall_score (underscores
replaced by spaces, title-cased) and the overall score displayed as
given; a strengths clause with the first 3 element names scoring at
least 3 in input order and a growth clause with the first 3 element
names scoring below 2.5, each clause omitted entirely when no item
qualifies; sentences joined by single spaces.  In particular the summary
of no element scores with overall 0 is the single opening sentence with
level critical. -/
theorem c6_summary_template (l : List ElementScore) (q : ℚ) :
    generate_summary l q = summarizeSpec l q ∧
    generate_summary [] 0 = "Overall performance: Critical (Score: 0/10)." := by
  constructor
  · unfold generate_summary summarizeSpec openingSentence strengthsClause growthClause
    have htake3 : ∀ xs : List String, xs.take 3 = [] ↔ xs = [] := by
      intro xs
      rw [List.take_eq_nil_iff]
      simp
    by_cases hst : (l.filter (fun e => 3 ≤ e.score)).map ElementScore.element_name = [] <;>
      by_cases hgr : (l.filter (fun e => e.score < 2.5)).map ElementScore.element_name = [] <;>
        simp [hst, hgr, htake3]
  · decide

/-! Peer matcher (src/backend/server.py, get_peer_recommendations,
lines 976-1081).  The database fetches are out of scope: the embedding
takes the target teacher's subject, the target's fetched assessments
(each a list of element scores) and the peer pool with each peer's
fetched assessments as input. -/

/-- Target-side average entry (source lines 1010-1015). -/
structure TargetAvg where
  avg : ℚ
  name : String
deriving DecidableEq

/-- Target-side group accumulator (source lines 1002-1008). -/
structure TargetGroup where
  scores : List ℚ
  name : String
deriving DecidableEq

/-- Initial target group entry (source line 1007). -/
def targetInit (e : ElementScore) : TargetGroup := ⟨[], e.element_name⟩

/-- Target group update (source line 1008). -/
def targetUpd (e : ElementScore) (g : TargetGroup) : TargetGroup :=
  ⟨g.scores ++ [e.score], g.name⟩

/-- Source lines 1002-1008: group the target's scores by element id over
all of its assessments in order. -/
def target_element_scores (assessments : List (List ElementScore)) :
    List (String × TargetGroup) :=
  dictGroup targetInit targetUpd assessments.flatten

/-- Source lines 1010-1015: per-element averages with display names. -/
def target_averages (assessments : List (List ElementScore)) :
    List (String × TargetAvg) :=
  (target_element_scores assessments).map (fun p => (p.1, ⟨qmean p.2.scores, p.2.name⟩))

/-- Source lines 1017-1020: element ids averaging below 6; when none, the
3 lowest-averaging element ids (Python sorted on the keys, stable). -/
def weak_areas (tAvgs : List (String × TargetAvg)) : List String :=
  if (tAvgs.filter (fun p => p.2.avg < 6)).map Prod.fst = [] then
    (sortStable (fun a b => decide (((List.lookup a tAvgs).map TargetAvg.avg).getD 0
        ≤ ((List.lookup b tAvgs).map TargetAvg.avg).getD 0)) (tAvgs.map Prod.fst)).take 3
  else (tAvgs.filter (fun p => p.2.avg < 6)).map Prod.fst

/-- Initial peer group entry (source line 1044). -/
def peerInit (_ : ElementScore) : List ℚ := []

/-- Peer group update (source line 1045). -/
def peerUpd (e : ElementScore) (s : List ℚ) : List ℚ := s ++ [e.score]

/-- Source lines 1039-1045: group a peer's scores by element id. -/
def peer_element_scores (assessments : List (List ElementScore)) :
    List (String × List ℚ) :=
  dictGroup peerInit peerUpd assessments.flatten

/-- Source line 1047: a peer's per-element averages. -/
def peer_averages (assessments : List (List ElementScore)) : List (String × ℚ) :=
  (peer_element_scores assessments).map (fun p => (p.1, qmean p.2))

/-- One recorded strength (source lines 1054-1058). -/
structure PeerStrength where
  element_id : String
  score : ℚ
  name : String
deriving DecidableEq

/-- A peer teacher together with its fetched assessments. -/
structure PeerTeacher where
  id : String
  name : String
  subject : String
  grade_level : String
  department : String
  assessments : List (List ElementScore)
deriving DecidableEq

/-- One recommendation entry (source lines 1068-1077). -/
structure PeerRecommendation where
  peer_id : String
  peer_name : String
  subject : String
  grade_level : String
  department : String
  strengths : List PeerStrength
  match_score : ℚ
  reason : String
deriving DecidableEq

/-- Loop body of the strengths scan (source lines 1052-1059): for a weak
area present in the peer's averages with value at least 7, append a
strength (peer average rounded to 1 decimal, name from the target's data
defaulting to the element id) and accumulate (peer average minus the
target average, defaulting to 5 when absent) divided by 10. -/
def strengthStep (tAvgs : List (String × TargetAvg)) (pAvgs : List (String × ℚ))
    (st : List PeerStrength × ℚ) (w : String) : List PeerStrength × ℚ :=
  match List.lookup w pAvgs with
  | some pa =>
    if pa ≥ 7 then
      (st.1 ++ [⟨w, pyRound 1 pa, ((List.lookup w tAvgs).map TargetAvg.name).getD w⟩],
        st.2 + (pa - ((List.lookup w tAvgs).map TargetAvg.avg).getD 5) / 10)
    else st
  | none => st

/-- Source lines 1050-1059: the strengths scan over all weak areas. -/
def peerStrengthsAcc (tAvgs : List (String × TargetAvg)) (pAvgs : List (String × ℚ))
    (weaks : List String) : List PeerStrength × ℚ :=
  weaks.foldl (strengthStep tAvgs pAvgs) ([], 0)

/-- Source lines 1029-1077: the recommendation entry built for one peer,
or nothing when the peer has no assessments or no strengths. -/
def peerRec (targetSubject : String) (tAvgs : List (String × TargetAvg))
    (weaks : List String) (peer : PeerTeacher) : Option PeerRecommendation :=
  if peer.assessments = [] then none
  else if (peerStrengthsAcc tAvgs (peer_averages peer.assessments) weaks).1 = [] then none
  else
    some
      { peer_id := peer.id
        peer_name := peer.name
        subject := peer.subject
        grade_level := peer.grade_level
        department := peer.department
        strengths := (peerStrengthsAcc tAvgs (peer_averages peer.assessments) weaks).1.take 3
        match_score := if weaks = [] then 0
          else min 1 ((peerStrengthsAcc tAvgs (peer_averages peer.assessments) weaks).2
            / (weaks.length : ℚ))
        reason :=
          if peer.subject = targetSubject then
            "Strong in " ++ String.intercalate ", "
              (((peerStrengthsAcc tAvgs (peer_averages peer.assessments) weaks).1.take 2).map
                (fun s => if s.name = "" then s.element_id else s.name))
              ++ " (same subject area)"
          else
            "Strong in " ++ String.intercalate ", "
              (((peerStrengthsAcc tAvgs (peer_averages peer.assessments) weaks).1.take 2).map
                (fun s => if s.name = "" then s.element_id else s.name)) }

/-- Source lines 976-1081: the whole endpoint logic: empty result for a
target without assessment history; otherwise the kept peers sorted by
match score descending (Python stable sort) and cut to the top 3. -/
def get_peer_recommendations (targetSubject : String)
    (target_assessments : List (List ElementScore)) (peers : List PeerTeacher) :
    List PeerRecommendation :=
  if target_assessments = [] then []
  else
    (sortStable (fun a b => decide (b.match_score ≤ a.match_score))
      (peers.filterMap (peerRec targetSubject (target_averages target_assessments)
        (weak_areas (target_averages target_assessments))))).take 3

lemma dictGroup_keys (init : ElementScore → α) (upd : ElementScore → α → α)
    (l : List ElementScore) :
    (dictGroup init upd l).map Prod.fst = firstKeys l := by
  rw [dictGroup_eq, List.map_map]
  have hcomp : (Prod.fst ∘ fun k => (k, groupVal init upd l k)) = fun k : String => k := rfl
  rw [hcomp]
  exact List.map_id _

lemma firstKeys_nodup (l : List ElementScore) : (firstKeys l).Nodup := by
  suffices h : ∀ (t : List ElementScore) (ks : List String),
      ks.Nodup → (t.foldl keyStep ks).Nodup by
    exact h l [] List.nodup_nil
  intro t
  induction t with
  | nil => intro ks h; simpa using h
  | cons e ts ih =>
    intro ks h
    rw [List.foldl_cons]
    refine ih _ ?_
    unfold keyStep
    by_cases he : e.element_id ∈ ks
    · rw [if_pos he]
      exact h
    · rw [if_neg he]
      rw [List.nodup_append]
      refine ⟨h, List.nodup_singleton _, ?_⟩
      intro a ha hae
      rw [List.mem_singleton] at hae
      exact he (hae ▸ ha)

/-- The strength recorded for one weak area, as the claim words it:
present in the peer's averages with value at least 7, scored with the
rounded peer average, named from the target's data with the element id
as fallback. -/
def strengthOf (tAvgs : List (String × TargetAvg)) (pAvgs : List (String × ℚ))
    (w : String) : Option PeerStrength :=
  match List.lookup w pAvgs with
  | some pa =>
    if pa ≥ 7 then
      some ⟨w, pyRound 1 pa, ((List.lookup w tAvgs).map TargetAvg.name).getD w⟩
    else none
  | none => none

/-- The match-score contribution of one weak area, as the claim words
it: (peer average minus target average, defaulting to 5 when the element
is absent from the target's data) / 10, and 0 when the area is not a
strength. -/
def contribOf (tAvgs : List (String × TargetAvg)) (pAvgs : List (String × ℚ))
    (w : String) : ℚ :=
  match List.lookup w pAvgs with
  | some pa =>
    if pa ≥ 7 then (pa - ((List.lookup w tAvgs).map TargetAvg.avg).getD 5) / 10
    else 0
  | none => 0

lemma strengthStep_foldl (tAvgs : List (String × TargetAvg)) (pAvgs : List (String × ℚ)) :
    ∀ (weaks : List String) (s : List PeerStrength) (a : ℚ),
      weaks.foldl (strengthStep tAvgs pAvgs) (s, a)
        = (s ++ weaks.filterMap (strengthOf tAvgs pAvgs),
            a + (weaks.map (contribOf tAvgs pAvgs)).sum) := by
  intro weaks
  induction weaks with
  | nil =>
    intro s a
    rw [List.foldl_nil, List.filterMap_nil, List.map_nil, List.sum_nil, List.append_nil,
      add_zero]
  | cons w ws ih =>
    intro s a
    rw [List.foldl_cons]
    rcases hw : List.lookup w pAvgs with _ | pa
    · rw [show strengthStep tAvgs pAvgs (s, a) w = (s, a) from by
        simp [strengthStep, hw]]
      rw [ih]
      simp [List.filterMap_cons, strengthOf, contribOf, hw]
    · by_cases h7 : pa ≥ 7
      · rw [show strengthStep tAvgs pAvgs (s, a) w
            = (s ++ [⟨w, pyRound 1 pa, ((List.lookup w tAvgs).map TargetAvg.name).getD w⟩],
                a + (pa - ((List.lookup w tAvgs).map TargetAvg.avg).getD 5) / 10) from by
          simp [strengthStep, hw, h7]]
        rw [ih]
        simp only [List.filterMap_cons, List.map_cons, List.sum_cons, strengthOf, contribOf, hw,
          if_pos h7, Prod.mk.injEq]
        refine ⟨by simp, by ring⟩
      · rw [show strengthStep tAvgs pAvgs (s, a) w = (s, a) from by
          simp [strengthStep, hw, h7]]
        rw [ih]
        simp only [List.filterMap_cons, List.map_cons, List.sum_cons, strengthOf, contribOf, hw,
          if_neg h7, Prod.mk.injEq]
        refine ⟨by simp, by ring⟩

lemma peerStrengthsAcc_eq (tAvgs : List (String × TargetAvg)) (pAvgs : List (String × ℚ))
    (weaks : List String) :
    peerStrengthsAcc tAvgs pAvgs weaks
      = (weaks.filterMap (strengthOf tAvgs pAvgs),
          (weaks.map (contribOf tAvgs pAvgs)).sum) := by
  unfold peerStrengthsAcc
  rw [strengthStep_foldl]
  simp

lemma peerRec_some (subj : String) (tAvgs : List (String × TargetAvg))
    (weaks : List String) (peer : PeerTeacher) (r : PeerRecommendation)
    (h : peerRec subj tAvgs weaks peer = some r) :
    peer.assessments ≠ [] ∧
    (peerStrengthsAcc tAvgs (peer_averages peer.assessments) weaks).1 ≠ [] ∧
    r.strengths = (peerStrengthsAcc tAvgs (peer_averages peer.assessments) weaks).1.take 3 ∧
    r.match_score = (if weaks = [] then 0
      else min 1 ((peerStrengthsAcc tAvgs (peer_averages peer.assessments) weaks).2
          / (weaks.length : ℚ))) := by
  unfold peerRec at h
  by_cases ha : peer.assessments = []
  · rw [if_pos ha] at h
    exact absurd h (by simp)
  · rw [if_neg ha] at h
    by_cases hs : (peerStrengthsAcc tAvgs (peer_averages peer.assessments) weaks).1 = []
    · rw [if_pos hs] at h
      exact absurd h (by simp)
    · rw [if_neg hs] at h
      have hr := Option.some.inj h
      refine ⟨ha, hs, ?_, ?_⟩
      · rw [← hr]
      · rw [← hr]

lemma mem_peer_recommendations (subj : String) (tA : List (List ElementScore))
    (peers : List PeerTeacher) (r : PeerRecommendation)
    (h : r ∈ get_peer_recommendations subj tA peers) :
    ∃ peer ∈ peers,
      peerRec subj (target_averages tA) (weak_areas (target_averages tA)) peer = some r := by
  unfold get_peer_recommendations at h
  by_cases htA : tA = []
  · rw [if_pos htA] at h
    exact absurd h (by simp)
  · rw [if_neg htA] at h
    have h1 := List.mem_of_mem_take h
    have h2 := ((sortStable_perm _ _).mem_iff).mp h1
    exact List.mem_filterMap.mp h2

lemma rndHalfEven_ge_floor (q : ℚ) : ⌊q⌋ ≤ rndHalfEven q := by
  unfold rndHalfEven
  split_ifs <;> omega

lemma seven_le_pyRound1 (pa : ℚ) (h : 7 ≤ pa) : 7 ≤ pyRound 1 pa := by
  unfold pyRound
  have h70 : (70 : ℤ) ≤ ⌊pa * (10 : ℚ) ^ 1⌋ := by
    rw [Int.le_floor]
    push_cast
    linarith
  have h2 : (70 : ℤ) ≤ rndHalfEven (pa * (10 : ℚ) ^ 1) :=
    le_trans h70 (rndHalfEven_ge_floor _)
  have h3 : (70 : ℚ) ≤ (rndHalfEven (pa * (10 : ℚ) ^ 1) : ℚ) := by exact_mod_cast h2
  rw [le_div_iff (by norm_num : (0 : ℚ) < (10 : ℚ) ^ 1)]
  linarith

/-- C7: get_peer_recommendations never returns more than 3 entries; it
is empty when the target has no assessment history (for every peer pool,
without inspecting it) and when the peer pool is empty; every returned
entry has at least one recorded strength (peers with zero strengths are
excluded); the result is sorted by match_score descending; and the
descending sort is stable (restricting it to any one match_score value
preserves the kept peers' input order). -/
theorem c7_peer_edge (subj : String) (tA : List (List ElementScore))
    (peers : List PeerTeacher) :
    (get_peer_recommendations subj tA peers).length ≤ 3 ∧
    (tA = [] → get_peer_recommendations subj tA peers = []) ∧
    (peers = [] → get_peer_recommendations subj tA peers = []) ∧
    (∀ r ∈ get_peer_recommendations subj tA peers, r.strengths ≠ []) ∧
    (get_peer_recommendations subj tA peers).Pairwise
      (fun a b => b.match_score ≤ a.match_score) ∧
    (∀ c : ℚ,
      (sortStable (fun a b : PeerRecommendation => decide (b.match_score ≤ a.match_score))
          (peers.filterMap (peerRec subj (target_averages tA)
            (weak_areas (target_averages tA))))).filter (fun r => r.match_score = c)
        = (peers.filterMap (peerRec subj (target_averages tA)
            (weak_areas (target_averages tA)))).filter (fun r => r.match_score = c)) := by
  have hkey : ∀ a b : PeerRecommendation,
      (fun a b : PeerRecommendation => decide (b.match_score ≤ a.match_score)) a b = true
        ↔ OrderDual.toDual a.match_score ≤ OrderDual.toDual b.match_score := by
    intro a b
    simp [OrderDual.toDual_le_toDual]
  refine ⟨?_, ?_, ?_, ?_, ?_, ?_⟩
  · unfold get_peer_recommendations
    by_cases htA : tA = []
    · rw [if_pos htA]
      norm_num
    · rw [if_neg htA]
      exact le_trans (List.length_take_le 3 _) (le_refl 3)
  · intro htA
    unfold get_peer_recommendations
    rw [if_pos htA]
  · intro hpeers
    unfold get_peer_recommendations
    by_cases htA : tA = []
    · rw [if_pos htA]
    · rw [if_neg htA, hpeers]
      rfl
  · intro r hr
    obtain ⟨peer, hmem, hsome⟩ := mem_peer_recommendations subj tA peers r hr
    obtain ⟨ha, hs, hstr, hmatch⟩ := peerRec_some subj _ _ peer r hsome
    rw [hstr]
    intro hc
    rcases List.take_eq_nil_iff.mp hc with h3 | h0
    · exact absurd h3 (by norm_num)
    · exact hs h0
  · unfold get_peer_recommendations
    by_cases htA : tA = []
    · rw [if_pos htA]
      exact List.Pairwise.nil
    · rw [if_neg htA]
      have hsorted := sorted_sortStable
        (fun a b : PeerRecommendation => decide (b.match_score ≤ a.match_score))
        (fun r => OrderDual.toDual r.match_score) hkey
        (peers.filterMap (peerRec subj (target_averages tA)
          (weak_areas (target_averages tA))))
      have h2 : (sortStable
          (fun a b : PeerRecommendation => decide (b.match_score ≤ a.match_score))
          (peers.filterMap (peerRec subj (target_averages tA)
            (weak_areas (target_averages tA))))).Pairwise
          (fun a b => b.match_score ≤ a.match_score) :=
        hsorted.imp (fun h => (hkey _ _).mp h)
      exact List.Pairwise.sublist (List.take_sublist 3 _) h2
  · intro c
    have hpred : (fun r : PeerRecommendation =>
        decide (OrderDual.toDual r.match_score = OrderDual.toDual c))
          = (fun r : PeerRecommendation => decide (r.match_score = c)) := by
      funext r
      exact decide_eq_decide.mpr OrderDual.toDual_inj
    have hfs := filter_sortStable
      (fun a b : PeerRecommendation => decide (b.match_score ≤ a.match_score))
      (fun r => OrderDual.toDual r.match_score) hkey
      (peers.filterMap (peerRec subj (target_averages tA)
        (weak_areas (target_averages tA)))) (OrderDual.toDual c)
    rw [hpred] at hfs
    exact hfs

/-- C7 witness: a target with no assessment history yields the empty
recommendation list against an arbitrary non-empty peer pool. -/
theorem c7_witness :
    get_peer_recommendations "s" []
      [⟨"p1", "P", "s", "g", "d", [[⟨"e1", "E1", 9, []⟩]]⟩] = [] :=
  (c7_peer_edge "s" [] [⟨"p1", "P", "s", "g", "d", [[⟨"e1", "E1", 9, []⟩]]⟩]).2.1 rfl

lemma target_averages_keys_nodup (tA : List (List ElementScore)) :
    ((target_averages tA).map Prod.fst).Nodup := by
  unfold target_averages target_element_scores
  rw [List.map_map]
  have hcomp : (Prod.fst ∘ fun p : String × TargetGroup =>
      (p.1, (⟨qmean p.2.scores, p.2.name⟩ : TargetAvg))) = Prod.fst := rfl
  rw [hcomp, dictGroup_keys]
  exact firstKeys_nodup _

lemma filter_keys_lookup :
    ∀ tAvgs : List (String × TargetAvg), (tAvgs.map Prod.fst).Nodup →
      (tAvgs.map Prod.fst).filter
          (fun k => ((List.lookup k tAvgs).map TargetAvg.avg).getD 0 < 6)
        = (tAvgs.filter (fun p => p.2.avg < 6)).map Prod.fst := by
  intro tAvgs
  induction tAvgs with
  | nil => intro _; rfl
  | cons p rest ih =>
    intro hnd
    obtain ⟨k0, v⟩ := p
    rw [List.map_cons] at hnd
    rcases List.nodup_cons.mp hnd with ⟨hk0, hrest⟩
    rw [List.map_cons, List.filter_cons, List.filter_cons]
    have hl0 : List.lookup k0 (((k0, v) :: rest) : List (String × TargetAvg)) = some v := by
      simp [List.lookup]
    have hcongr : (rest.map Prod.fst).filter
        (fun k => ((List.lookup k (((k0, v) :: rest) : List (String × TargetAvg))).map
          TargetAvg.avg).getD 0 < 6)
      = (rest.map Prod.fst).filter
        (fun k => ((List.lookup k rest).map TargetAvg.avg).getD 0 < 6) := by
      refine List.filter_congr ?_
      intro k hk
      have hne : k ≠ k0 := fun hc => hk0 (hc ▸ hk)
      have hbeq : (k == k0) = false := by
        simp [hne]
      have hlk : List.lookup k (((k0, v) :: rest) : List (String × TargetAvg))
          = List.lookup k rest := by
        simp [List.lookup, hbeq]
      rw [hlk]
    rw [hl0, hcongr, ih hrest]
    by_cases hv : v.avg < 6
    · simp [hv]
    · simp [hv]

/-- The weak areas as the claim words them: the element ids whose target
average is below 6, falling back, when none are, to the 3 lowest-average
element ids under the stable ascending sort. -/
def weakAreasSpec (tAvgs : List (String × TargetAvg)) : List String :=
  if (tAvgs.map Prod.fst).filter
      (fun k => ((List.lookup k tAvgs).map TargetAvg.avg).getD 0 < 6) = [] then
    (sortStable (fun a b => decide (((List.lookup a tAvgs).map TargetAvg.avg).getD 0
        ≤ ((List.lookup b tAvgs).map TargetAvg.avg).getD 0)) (tAvgs.map Prod.fst)).take 3
  else
    (tAvgs.map Prod.fst).filter
      (fun k => ((List.lookup k tAvgs).map TargetAvg.avg).getD 0 < 6)

lemma weak_areas_eq_spec (tAvgs : List (String × TargetAvg))
    (hnd : (tAvgs.map Prod.fst).Nodup) :
    weak_areas tAvgs = weakAreasSpec tAvgs := by
  unfold weak_areas weakAreasSpec
  rw [filter_keys_lookup tAvgs hnd]

/-- C4: over a target's computed averages, the weak areas are exactly
the element ids whose target average is below 6, with the stable 3-lowest
fallback (weakAreasSpec); the strengths scan records a strength for each
weak area with peer average at least 7 and accumulates the per-area
contributions (strengthOf and contribOf, where the target average
defaults to 5 when the element is absent from the target's data); and a
kept peer's final match_score divides the accumulated sum by the
original weak-area count (not the number of strengths found), capped at
1. -/
theorem c4_peer_scoring (tA : List (List ElementScore)) (peer : PeerTeacher)
    (subj : String) (r : PeerRecommendation) :
    weak_areas (target_averages tA) = weakAreasSpec (target_averages tA) ∧
    peerStrengthsAcc (target_averages tA) (peer_averages peer.assessments)
        (weak_areas (target_averages tA))
      = ((weak_areas (target_averages tA)).filterMap
            (strengthOf (target_averages tA) (peer_averages peer.assessments)),
          ((weak_areas (target_averages tA)).map
            (contribOf (target_averages tA) (peer_averages peer.assessments))).sum) ∧
    (peerRec subj (target_averages tA) (weak_areas (target_averages tA)) peer = some r →
      weak_areas (target_averages tA) ≠ [] →
      r.match_score = min 1
        (((weak_areas (target_averages tA)).map
            (contribOf (target_averages tA) (peer_averages peer.assessments))).sum
          / ((weak_areas (target_averages tA)).length : ℚ))) ∧
    (∀ (tAvgs : List (String × TargetAvg)) (pA : List (String × ℚ)) (w : String) (pa : ℚ),
      List.lookup w tAvgs = none → List.lookup w pA = some pa → pa ≥ 7 →
      contribOf tAvgs pA w = (pa - 5) / 10) := by
  refine ⟨weak_areas_eq_spec _ (target_averages_keys_nodup tA),
    peerStrengthsAcc_eq _ _ _, ?_, ?_⟩
  · intro hsome hne
    obtain ⟨ha, hs, hstr, hmatch⟩ := peerRec_some subj _ _ peer r hsome
    rw [hmatch, if_neg hne, peerStrengthsAcc_eq]
  · intro tAvgs pA w pa hnone hsome h7
    simp [contribOf, hsome, hnone, h7]

/-- C4 witness: the default target average of 5 applied at an element
absent from the target's data, with a peer average of 8. -/
theorem c4_witness :
    contribOf [] [("e1", (8 : ℚ))] "e1" = (8 - 5) / 10 :=
  (c4_peer_scoring [] ⟨"", "", "", "", "", []⟩ "" ⟨"", "", "", "", "", [], 0, ""⟩).2.2.2
    [] [("e1", 8)] "e1" 8 rfl rfl (by norm_num)

/-! A concrete peer-matching scenario in which the accumulated match
score is negative: the target averages 9.8 on its only element, so the
fallback weak areas are that element, and a peer averaging exactly 7
on it is recorded as a strength with a negative contribution. -/

/-- Concrete target history: one assessment scoring element e1 at 9.8. -/
def tEx : List (List ElementScore) := [[⟨"e1", "E1", 49/5, []⟩]]

/-- Concrete peer: same subject, one assessment scoring e1 at 7. -/
def pEx : PeerTeacher := ⟨"p1", "P", "m", "g", "d", [[⟨"e1", "E1", 7, []⟩]]⟩

/-- The recommendation entry the code produces for that scenario. -/
def rEx : PeerRecommendation :=
  ⟨"p1", "P", "m", "g", "d", [⟨"e1", 7, "E1"⟩], -(7/25),
    "Strong in E1 (same subject area)"⟩

lemma qmean_single (x : ℚ) : qmean [x] = x := by
  simp [qmean]

lemma tEx_avgs : target_averages tEx = [("e1", ⟨(49 : ℚ)/5, "E1"⟩)] := by
  unfold target_averages target_element_scores tEx
  rw [show ([[(⟨"e1", "E1", (49 : ℚ)/5, []⟩ : ElementScore)]] :
      List (List ElementScore)).flatten = [⟨"e1", "E1", 49/5, []⟩] from rfl]
  rw [show dictGroup targetInit targetUpd [(⟨"e1", "E1", (49 : ℚ)/5, []⟩ : ElementScore)]
      = [("e1", (⟨[(49 : ℚ)/5], "E1"⟩ : TargetGroup))] from rfl]
  rw [List.map_cons, List.map_nil, qmean_single]

lemma tEx_weak : weak_areas [("e1", (⟨(49 : ℚ)/5, "E1"⟩ : TargetAvg))] = ["e1"] := by
  unfold weak_areas
  rw [show ([("e1", (⟨(49 : ℚ)/5, "E1"⟩ : TargetAvg))].filter (fun p => p.2.avg < 6))
      = [] from by
    rw [List.filter_cons]
    rw [show (decide ((⟨(49 : ℚ)/5, "E1"⟩ : TargetAvg).avg < 6)) = false from
      decide_eq_false (by norm_num)]
    rfl]
  rfl

lemma pEx_avgs : peer_averages [[(⟨"e1", "E1", (7 : ℚ), []⟩ : ElementScore)]]
    = [("e1", (7 : ℚ))] := by
  unfold peer_averages peer_element_scores
  rw [show ([[(⟨"e1", "E1", (7 : ℚ), []⟩ : ElementScore)]] :
      List (List ElementScore)).flatten = [⟨"e1", "E1", 7, []⟩] from rfl]
  rw [show dictGroup peerInit peerUpd [(⟨"e1", "E1", (7 : ℚ), []⟩ : ElementScore)]
      = [("e1", [(7 : ℚ)])] from rfl]
  rw [List.map_cons, List.map_nil, qmean_single]

lemma pyRound1_7 : pyRound 1 (7 : ℚ) = 7 := by
  unfold pyRound
  rw [show (7 : ℚ) * (10 : ℚ) ^ 1 = 70 from by norm_num,
    rndHalfEven_eq_of_lt 70 70 (by norm_num) (by norm_num)]
  norm_num

lemma sEx_acc : peerStrengthsAcc [("e1", (⟨(49 : ℚ)/5, "E1"⟩ : TargetAvg))]
    [("e1", (7 : ℚ))] ["e1"]
    = ([⟨"e1", (7 : ℚ), "E1"⟩], (7 - 49/5)/10) := by
  unfold peerStrengthsAcc
  rw [List.foldl_cons, List.foldl_nil]
  unfold strengthStep
  simp only [show List.lookup "e1" [("e1", (7 : ℚ))] = some 7 from rfl,
    show List.lookup "e1" [("e1", (⟨(49 : ℚ)/5, "E1"⟩ : TargetAvg))]
      = some ⟨49/5, "E1"⟩ from rfl]
  rw [if_pos (show (7 : ℚ) ≥ 7 from by norm_num)]
  simp [pyRound1_7]

lemma peerRec_ex : peerRec "m" [("e1", (⟨(49 : ℚ)/5, "E1"⟩ : TargetAvg))] ["e1"] pEx
    = some rEx := by
  unfold peerRec
  rw [show pEx.assessments = [[(⟨"e1", "E1", (7 : ℚ), []⟩ : ElementScore)]] from rfl]
  rw [if_neg (show ¬ ([[(⟨"e1", "E1", (7 : ℚ), []⟩ : ElementScore)]] :
      List (List ElementScore)) = [] from by simp)]
  rw [pEx_avgs, sEx_acc]
  rw [if_neg (show ¬ ([(⟨"e1", (7 : ℚ), "E1"⟩ : PeerStrength)] :
      List PeerStrength) = [] from by simp)]
  apply congrArg some
  have hms : (if (["e1"] : List String) = [] then (0 : ℚ)
      else min 1 (((7 : ℚ) - 49/5)/10 / (((["e1"] : List String).length : ℕ) : ℚ)))
      = -(7/25) := by
    rw [if_neg (by simp)]
    rw [show ((7 : ℚ) - 49/5)/10 / (((["e1"] : List String).length : ℕ) : ℚ)
        = -(7/25) from by norm_num]
    rw [min_eq_right (by norm_num)]
  rw [hms]
  rfl

lemma scenario_eval : get_peer_recommendations "m" tEx [pEx] = [rEx] := by
  unfold get_peer_recommendations
  rw [if_neg (show ¬ tEx = [] from by unfold tEx; simp)]
  rw [tEx_avgs, tEx_weak]
  simp only [List.filterMap_cons, List.filterMap_nil, peerRec_ex]
  rfl

/-- C10: every recommendation entry has match_score at most 1, and every
listed strength records a score of at least 7 (the rounded peer average
over an element whose unrounded average was at least 7); no lower bound
of 0 on match_score is enforced: in the concrete scenario tEx/pEx the
returned match_score is -7/25, which is negative. -/
theorem c10_match_invariants (subj : String) (tA : List (List ElementScore))
    (peers : List PeerTeacher) :
    (∀ r ∈ get_peer_recommendations subj tA peers,
      r.match_score ≤ 1 ∧ ∀ s ∈ r.strengths, 7 ≤ s.score) ∧
    (get_peer_recommendations "m" tEx [pEx]).map PeerRecommendation.match_score
      = [-(7/25)] ∧
    (-(7/25) : ℚ) < 0 := by
  refine ⟨?_, by rw [scenario_eval]; rfl, by norm_num⟩
  intro r hr
  obtain ⟨peer, hmem, hsome⟩ := mem_peer_recommendations subj tA peers r hr
  obtain ⟨ha, hs, hstr, hmatch⟩ := peerRec_some subj _ _ peer r hsome
  constructor
  · rw [hmatch]
    by_cases hw : weak_areas (target_averages tA) = []
    · rw [if_pos hw]
      norm_num
    · rw [if_neg hw]
      exact min_le_left _ _
  · intro s hsmem
    rw [hstr] at hsmem
    have h1 : s ∈ (peerStrengthsAcc (target_averages tA)
        (peer_averages peer.assessments) (weak_areas (target_averages tA))).1 :=
      List.mem_of_mem_take hsmem
    rw [peerStrengthsAcc_eq] at h1
    obtain ⟨w, hwmem, hws⟩ := List.mem_filterMap.mp h1
    unfold strengthOf at hws
    rcases hlw : List.lookup w (peer_averages peer.assessments) with _ | pa
    · simp only [hlw] at hws
      exact absurd hws (by simp)
    · simp only [hlw] at hws
      by_cases h7 : pa ≥ 7
      · rw [if_pos h7] at hws
        have hinj := Option.some.inj hws
        rw [← hinj]
        exact seven_le_pyRound1 pa h7
      · rw [if_neg h7] at hws
        exact absurd hws (by simp)

/-- C10 witness: the invariants applied at the concrete scenario entry,
whose membership in the returned list is discharged by evaluation. -/
theorem c10_witness :
    rEx.match_score ≤ 1 ∧ ∀ s ∈ rEx.strengths, 7 ≤ s.score :=
  (c10_match_invariants "m" tEx [pEx]).1 rEx
    (by rw [scenario_eval]; exact List.mem_singleton_self _)

/-- C8: evidence for the scale mixup: the level the code attaches to raw
AI 1-4 output is computed with the 1-10 gradient banding
(get_performance_level at source line 1452), so the maximal raw score
4.0 (Distinguished per the AI prompt and per the legacy mapping in the
repository's own tests) is labelled critical; indeed every score on the
whole 1-4 raw scale is labelled critical. -/
theorem c8_scale_mixup :
    ai_attached_level 4 = "critical" ∧
    legacy_performance_level 4 = "Distinguished" ∧
    ("critical" : String) ≠ "Distinguished" ∧
    (∀ s : ℚ, 1 ≤ s → s ≤ 4 → ai_attached_level s = "critical") := by
  refine ⟨by decide, ?_, by decide, ?_⟩
  · unfold legacy_performance_level
    rw [if_pos (show (4 : ℚ) ≥ 35/10 from by norm_num)]
  · intro s h1 h4
    exact level_of_lt5 s (lt_of_le_of_lt h4 (by norm_num))

/-- C8 witness: the 1-10 banding applied at the raw AI score 2.0
(Basic on the 1-4 scale) yields critical. -/
theorem c8_witness : ai_attached_level 2 = "critical" :=
  c8_scale_mixup.2.2.2 2 (by norm_num) (by norm_num)

end Cognivio
